import Mathlib

/-!
Verification of the portfolio-collection bot (`src/main.py`): a per-user
conversation state machine built on a Telegram `ConversationHandler`, plus a
`save_to_sheet` persistence routine with a bounded retry loop.

The embedding below translates the handler functions of `PortfolioBot` and the
dispatch behavior of the surrounding `ConversationHandler` (entry points,
per-state message handlers, fallbacks, default `allow_reentry = False`) into
pure Lean functions, and `save_to_sheet` into a trace-producing function
parametrized by a backend oracle (which `append_row` calls succeed) and a
clock oracle (what `datetime.now()` returns at each sampling).
-/

namespace PortfolioBot

/-- The seven conversation-handler states of `main.py` line 34:
`NAME, CONTACT, INTRODUCTION, PROJECT_NAME, PROJECT_LINK, PROJECT_DOC,
ANOTHER_PROJECT = range(7)`. -/
inductive ConvState where
  | NAME
  | CONTACT
  | INTRODUCTION
  | PROJECT_NAME
  | PROJECT_LINK
  | PROJECT_DOC
  | ANOTHER_PROJECT
deriving DecidableEq, Repr

/-- One project entry, as accumulated by `get_project_name` /
`get_project_link` / `get_project_doc`.  In the Python code it is a dict that
starts as `{'name': text}` and gains the keys `link` and `doc` later, so the
latter two are `Option`s here. -/
structure Project where
  name : String
  link : Option String
  doc : Option String
deriving DecidableEq, Repr

/-- The per-user transient record stored in the global `user_data` dict.
`start` initializes it to `{'projects': []}` (no `name`/`contact`/
`introduction` keys yet), so those fields are `Option`s. -/
structure UserRecord where
  name : Option String
  contact : Option String
  introduction : Option String
  projects : List Project
deriving DecidableEq, Repr

/-- The record `start` creates: `user_data[user_id] = {'projects': []}`. -/
def emptyRecord : UserRecord := ⟨none, none, none, []⟩

/-- The engine state for one user identity: the `ConversationHandler`
conversation state (`none` when no conversation is active, i.e. before
`/start` or after `ConversationHandler.END`), and this user's entry in the
`user_data` dict (`none` when absent). -/
structure BotState where
  conv : Option ConvState
  record : Option UserRecord
deriving DecidableEq, Repr

/-- Pre-start condition: no active conversation, no `user_data` entry. -/
def initBot : BotState := ⟨none, none⟩

/-- An inbound update: the `/start` command, the `/cancel` command, or a plain
text message (matched by `filters.TEXT & ~filters.COMMAND`). -/
inductive Msg where
  | start
  | cancel
  | text (t : String)
deriving DecidableEq, Repr

/-- Outbound messages, identified by intent (the exact prompt strings carry no
logic). -/
inductive OutMsg where
  | askName
  | askContact
  | askIntroduction
  | askProjectName
  | askProjectLink
  | askProjectDoc
  | askAnotherProject
  | askNextProjectName
  | savedOk
  | saveFailed
  | canceled
deriving DecidableEq, Repr

/-- Result of dispatching one inbound update: the next engine state, the
`save_to_sheet` invocations made during the step (each with the record passed
to it), and the replies sent. -/
structure StepOut where
  bot : BotState
  persists : List UserRecord
  replies : List OutMsg
deriving DecidableEq, Repr

/-- Update the last element of a list in place, as the Python
`projects[-1]['link'] = text` mutation does.  On the empty list the Python
code would raise `IndexError`; that situation is unreachable in the handler
flow, and here the list is returned unchanged. -/
def updateLast (f : Project → Project) : List Project → List Project
  | [] => []
  | [p] => [f p]
  | p :: q :: ps => p :: updateLast f (q :: ps)

/-- Python's `str.lower()` on the message text: lower-case the string
character by character (stated on the character list so that it reduces in the
kernel). -/
def lower (s : String) : String := ⟨s.data.map Char.toLower⟩

/-- The affirmative test of `ask_another_project`:
`update.message.text.lower() == 'yes'`. -/
def isYes (t : String) : Bool := lower t == "yes"

/-- The body of the per-state text handlers (`get_name` … `ask_another_project`),
given the current conversation state, the stored record and the message text.
`sinkOk` abstracts the outcome of the `save_to_sheet` call made on the
negative repeat answer (`True` = no exception); the call itself is recorded in
`persists`. -/
def handleText (sinkOk : Bool) (st : ConvState) (r : UserRecord) (t : String) :
    StepOut :=
  match st with
  | .NAME =>
      ⟨⟨some .CONTACT, some { r with name := some t }⟩, [], [.askContact]⟩
  | .CONTACT =>
      ⟨⟨some .INTRODUCTION, some { r with contact := some t }⟩, [],
        [.askIntroduction]⟩
  | .INTRODUCTION =>
      ⟨⟨some .PROJECT_NAME, some { r with introduction := some t }⟩, [],
        [.askProjectName]⟩
  | .PROJECT_NAME =>
      ⟨⟨some .PROJECT_LINK,
          some { r with projects := r.projects ++ [⟨t, none, none⟩] }⟩, [],
        [.askProjectLink]⟩
  | .PROJECT_LINK =>
      ⟨⟨some .PROJECT_DOC,
          some { r with
            projects := updateLast (fun p => { p with link := some t })
              r.projects }⟩, [], [.askProjectDoc]⟩
  | .PROJECT_DOC =>
      ⟨⟨some .ANOTHER_PROJECT,
          some { r with
            projects := updateLast (fun p => { p with doc := some t })
              r.projects }⟩, [], [.askAnotherProject]⟩
  | .ANOTHER_PROJECT =>
      if isYes t then
        ⟨⟨some .PROJECT_NAME, some r⟩, [], [.askNextProjectName]⟩
      else
        ⟨⟨none, none⟩, [r], [if sinkOk then .savedOk else .saveFailed]⟩

/-- Dispatch of one inbound update through the `ConversationHandler` of
`initialize_bot`.  Per the handler configuration (entry point `/start`,
per-state `MessageHandler(filters.TEXT & ~filters.COMMAND, …)`, fallback
`/cancel`) and the default `allow_reentry = False`:

* with no active conversation, only the entry point `/start` matches — text
  and `/cancel` are unhandled;
* with an active conversation, entry points are not consulted, so `/start` is
  unhandled; non-command text goes to the current state handler and `/cancel`
  to the fallback. -/
def step (sinkOk : Bool) (b : BotState) (m : Msg) : StepOut :=
  match m, b.conv with
  | .start, none => ⟨⟨some .NAME, some emptyRecord⟩, [], [.askName]⟩
  | .start, some _ => ⟨b, [], []⟩
  | .cancel, none => ⟨b, [], []⟩
  | .cancel, some _ => ⟨⟨none, none⟩, [], [.canceled]⟩
  | .text _, none => ⟨b, [], []⟩
  | .text t, some st => handleText sinkOk st (b.record.getD emptyRecord) t

/-- Run a sequence of inbound updates from a given engine state, accumulating
the `save_to_sheet` invocations and replies in order. -/
def run (sinkOk : Bool) (b : BotState) : List Msg → StepOut
  | [] => ⟨b, [], []⟩
  | m :: ms =>
      let o := step sinkOk b m
      let o2 := run sinkOk o.bot ms
      ⟨o2.bot, o.persists ++ o2.persists, o.replies ++ o2.replies⟩

/-! ## The Submission Sink: `save_to_sheet` -/

/-- Default of the `MAX_RETRIES` environment variable (`main.py` line 27). -/
def MAX_RETRIES : Nat := 3

/-- Default of the `RETRY_DELAY` environment variable (`main.py` line 28). -/
def RETRY_DELAY : Nat := 10

/-- Observable backend events of one `save_to_sheet` call: a
`datetime.now()` sampling, a successful `self.sheet.append_row(row)`, and a
`time.sleep(d)`. -/
inductive Ev where
  | sample (ts : String)
  | append (row : List String)
  | sleep (d : Nat)
deriving DecidableEq, Repr

/-- Build the row for one project:
`[timestamp, data['name'], data['contact'], data['introduction'],
project['name'], project['link'], project['doc']]`.  A missing key raises
`KeyError` in Python, modelled as `none`. -/
def projRow (ts : String) (r : UserRecord) (p : Project) :
    Option (List String) :=
  match r.name, r.contact, r.introduction, p.link, p.doc with
  | some n, some c, some i, some l, some d => some [ts, n, c, i, p.name, l, d]
  | _, _, _, _, _ => none

/-- One pass of the `for project in data['projects']` loop: build and append
each row in order; `ok i` tells whether the `i`-th `append_row` call of this
attempt succeeds.  Returns the rows actually appended and whether the whole
pass completed without an exception. -/
def tryRows (ok : Nat → Bool) (ts : String) (r : UserRecord) :
    Nat → List Project → List Ev × Bool
  | _, [] => ([], true)
  | i, p :: ps =>
      match projRow ts r p with
      | none => ([], false)
      | some row =>
          if ok i then
            let rest := tryRows ok ts r (i + 1) ps
            (.append row :: rest.1, rest.2)
          else ([], false)

/-- The `while retry_count < MAX_RETRIES` loop of `save_to_sheet`.  `ok k i`
tells whether the `i`-th `append_row` of attempt `k` succeeds; `clock k` is
the string `datetime.now().strftime('%Y-%m-%d %H:%M:%S')` returns at attempt
`k` (the sampling happens inside the loop body, once per attempt).  `attempt`
is the current value of `retry_count` and `fuel = maxRetries - retry_count`.
Returns the event trace and `true` for a normal return, `false` when the last
exception is re-raised. -/
def saveLoop (ok : Nat → Nat → Bool) (clock : Nat → String) (r : UserRecord)
    (retryDelay : Nat) : Nat → Nat → List Ev × Bool
  | _, 0 => ([], true)
  | attempt, fuel + 1 =>
      let ts := clock attempt
      let pass := tryRows (ok attempt) ts r 0 r.projects
      if pass.2 then (.sample ts :: pass.1, true)
      else if fuel = 0 then (.sample ts :: pass.1, false)
      else
        let rest := saveLoop ok clock r retryDelay (attempt + 1) fuel
        (.sample ts :: pass.1 ++ .sleep retryDelay :: rest.1, rest.2)

/-- `save_to_sheet` for one user's record: the retry loop started with
`retry_count = 0`. -/
def save_to_sheet (ok : Nat → Nat → Bool) (clock : Nat → String)
    (maxRetries retryDelay : Nat) (r : UserRecord) : List Ev × Bool :=
  saveLoop ok clock r retryDelay 0 maxRetries

/-- Rows appended in a trace, in order. -/
def appendsOf : List Ev → List (List String)
  | [] => []
  | .append row :: evs => row :: appendsOf evs
  | _ :: evs => appendsOf evs

/-- Timestamps sampled in a trace, in order (one per attempt made). -/
def samplesOf : List Ev → List String
  | [] => []
  | .sample ts :: evs => ts :: samplesOf evs
  | _ :: evs => samplesOf evs

/-- Sleep durations in a trace, in order. -/
def sleepsOf : List Ev → List Nat
  | [] => []
  | .sleep d :: evs => d :: sleepsOf evs
  | _ :: evs => sleepsOf evs

/-- Whether attempt `k` on record `r` would fail (raise out of the `try`
block): some row fails to build or some `append_row` call of that attempt
raises. -/
def attemptFails (ok : Nat → Nat → Bool) (clock : Nat → String)
    (r : UserRecord) (k : Nat) : Bool :=
  !(tryRows (ok k) (clock k) r 0 r.projects).2

/-- A project entry with all three fields present (`link` and `doc` filled
in). -/
def populated (p : Project) : Bool := p.link.isSome && p.doc.isSome

/-- The sample record used in concrete scenarios: the six collected answers
of the spec scenario plus a second project. -/
def adaTwo : UserRecord :=
  ⟨some "Ada", some "ada@x.com", some "Builder",
    [⟨"Proj1", some "http://a", some "docA"⟩,
      ⟨"Proj2", some "http://b", some "docB"⟩]⟩

/-- Backend oracle: on attempt 0 the second `append_row` raises; every later
attempt succeeds entirely. -/
def failSecondRowOnce (k i : Nat) : Bool := !(k == 0 && i == 1)

/-- Clock oracle returning a different timestamp string on attempt 0 and on
every later attempt. -/
def twoTickClock (k : Nat) : String := if k == 0 then "t0" else "t1"

/-- The inbound updates of the one-project spec scenario up to (and
excluding) the repeat answer: `/start` plus the six collected answers. -/
def adaMsgs : List Msg :=
  [.start, .text "Ada", .text "ada@x.com", .text "Builder", .text "Proj1",
    .text "http://a", .text "docA"]

/-! ## Helper lemmas -/

theorem updateLast_concat (f : Project → Project) (xs : List Project)
    (x : Project) : updateLast f (xs ++ [x]) = xs ++ [f x] := by
  induction xs with
  | nil => rfl
  | cons y ys ih =>
      cases ys with
      | nil => rfl
      | cons z zs =>
          simp only [List.cons_append, updateLast] at ih ⊢
          exact congrArg _ ih

theorem run_append (sinkOk : Bool) (b : BotState) (ms1 ms2 : List Msg) :
    run sinkOk b (ms1 ++ ms2)
      = ⟨(run sinkOk (run sinkOk b ms1).bot ms2).bot,
          (run sinkOk b ms1).persists
            ++ (run sinkOk (run sinkOk b ms1).bot ms2).persists,
          (run sinkOk b ms1).replies
            ++ (run sinkOk (run sinkOk b ms1).bot ms2).replies⟩ := by
  induction ms1 generalizing b with
  | nil => simp [run]
  | cons m ms ih =>
      simp only [List.cons_append, run, ih]
      simp [List.append_assoc, ih]

theorem isYes_yes : isYes "yes" = true := by decide

theorem isYes_no : isYes "no" = false := by decide

theorem samplesOf_append (a b : List Ev) :
    samplesOf (a ++ b) = samplesOf a ++ samplesOf b := by
  induction a with
  | nil => rfl
  | cons e es ih => cases e <;> simp [samplesOf, ih]

theorem sleepsOf_append (a b : List Ev) :
    sleepsOf (a ++ b) = sleepsOf a ++ sleepsOf b := by
  induction a with
  | nil => rfl
  | cons e es ih => cases e <;> simp [sleepsOf, ih]

theorem appendsOf_append (a b : List Ev) :
    appendsOf (a ++ b) = appendsOf a ++ appendsOf b := by
  induction a with
  | nil => rfl
  | cons e es ih => cases e <;> simp [appendsOf, ih]

theorem samplesOf_tryRows (ok : Nat → Bool) (ts : String) (r : UserRecord) :
    ∀ i ps, samplesOf (tryRows ok ts r i ps).1 = [] := by
  intro i ps
  induction ps generalizing i with
  | nil => rfl
  | cons p ps ih =>
      simp only [tryRows]
      cases hpr : projRow ts r p with
      | none => rfl
      | some row =>
          by_cases hok : ok i = true
          · simp [hok, samplesOf, ih]
          · simp [hok, samplesOf]

theorem sleepsOf_tryRows (ok : Nat → Bool) (ts : String) (r : UserRecord) :
    ∀ i ps, sleepsOf (tryRows ok ts r i ps).1 = [] := by
  intro i ps
  induction ps generalizing i with
  | nil => rfl
  | cons p ps ih =>
      simp only [tryRows]
      cases hpr : projRow ts r p with
      | none => rfl
      | some row =>
          by_cases hok : ok i = true
          · simp [hok, sleepsOf, ih]
          · simp [hok, sleepsOf]

theorem tryRows_success_appends (ok : Nat → Bool) (ts : String)
    (r : UserRecord) :
    ∀ i ps, (tryRows ok ts r i ps).2 = true →
      appendsOf (tryRows ok ts r i ps).1 = ps.filterMap (projRow ts r) := by
  intro i ps
  induction ps generalizing i with
  | nil => intro _; rfl
  | cons p ps ih =>
      intro hsucc
      rw [tryRows] at hsucc ⊢
      cases hpr : projRow ts r p with
      | none => simp [hpr] at hsucc
      | some row =>
          by_cases hok : ok i = true
          · simp only [hpr, hok, if_true] at hsucc ⊢
            simp only [appendsOf, List.filterMap_cons, hpr]
            exact congrArg _ (ih (i + 1) hsucc)
          · simp [hpr, hok] at hsucc

theorem projRow_head (ts : String) (r : UserRecord) (p : Project)
    (row : List String) (h : projRow ts r p = some row) :
    row.head? = some ts := by
  unfold projRow at h
  revert h
  cases r.name <;> cases r.contact <;> cases r.introduction <;>
    cases p.link <;> cases p.doc <;> intro h <;>
    first
      | exact Option.noConfusion h
      | (obtain rfl := Option.some.inj h; rfl)

/-- Full behavior of the `save_to_sheet` retry loop, by induction on the
remaining fuel: at most `fuel` attempts are made (one `datetime.now()` sample
per attempt), the sleeps between consecutive attempts all last `d`, every
attempt before the last one failed, and the loop raises (returns `false`)
exactly when there was at least one attempt allowed and all allowed attempts
failed. -/
theorem saveLoop_spec (ok : Nat → Nat → Bool) (clock : Nat → String)
    (r : UserRecord) (d : Nat) :
    ∀ (fuel attempt : Nat),
      (samplesOf (saveLoop ok clock r d attempt fuel).1).length ≤ fuel
      ∧ sleepsOf (saveLoop ok clock r d attempt fuel).1
        = List.replicate
            ((samplesOf (saveLoop ok clock r d attempt fuel).1).length - 1) d
      ∧ (∀ i, i + 1 < (samplesOf (saveLoop ok clock r d attempt fuel).1).length
          → attemptFails ok clock r (attempt + i) = true)
      ∧ ((saveLoop ok clock r d attempt fuel).2 = false
          ↔ 1 ≤ fuel
            ∧ ∀ i < fuel, attemptFails ok clock r (attempt + i) = true)
      ∧ (1 ≤ fuel →
          1 ≤ (samplesOf (saveLoop ok clock r d attempt fuel).1).length) := by
  intro fuel
  induction fuel with
  | zero =>
      intro attempt
      refine ⟨by simp [saveLoop, samplesOf], by simp [saveLoop, samplesOf,
        sleepsOf], ?_, ?_, ?_⟩
      · intro i hi
        simp [saveLoop, samplesOf] at hi
      · simp [saveLoop]
      · intro h
        exact absurd h (by omega)
  | succ f ih =>
      intro attempt
      rw [saveLoop]
      by_cases h2 : (tryRows (ok attempt) (clock attempt) r 0 r.projects).2
        = true
      · rw [if_pos h2]
        have hfail : attemptFails ok clock r attempt = false := by
          simp [attemptFails, h2]
        refine ⟨?_, ?_, ?_, ?_, ?_⟩ <;>
          simp only [samplesOf, sleepsOf, samplesOf_tryRows, sleepsOf_tryRows]
        · simp
        · simp
        · intro i hi
          simp at hi
        · constructor
          · intro h
            exact absurd h (by simp)
          · rintro ⟨-, hall⟩
            have h0 := hall 0 (by omega)
            rw [Nat.add_zero, hfail] at h0
            exact absurd h0 (by simp)
        · intro _
          simp
      · rw [if_neg h2]
        have hfail : attemptFails ok clock r attempt = true := by
          simp [attemptFails]
          exact Bool.eq_false_iff.mpr h2
        by_cases hf : f = 0
        · subst hf
          rw [if_pos rfl]
          refine ⟨?_, ?_, ?_, ?_, ?_⟩ <;>
            simp only [samplesOf, sleepsOf, samplesOf_tryRows,
              sleepsOf_tryRows]
          · simp
          · simp
          · intro i hi
            simp at hi
          · constructor
            · intro _
              refine ⟨by omega, ?_⟩
              intro i hi
              have : i = 0 := by omega
              subst this
              rwa [Nat.add_zero]
            · intro _
              trivial
          · intro _
            simp
        · rw [if_neg hf]
          obtain ⟨hL1, hL2, hL3, hL4, hL5⟩ := ih (attempt + 1)
          have hLen : 1 ≤ (samplesOf
              (saveLoop ok clock r d (attempt + 1) f).1).length :=
            hL5 (by omega)
          refine ⟨?_, ?_, ?_, ?_, ?_⟩ <;>
            simp only [samplesOf, sleepsOf, List.append_eq, samplesOf_append,
              sleepsOf_append, samplesOf_tryRows, sleepsOf_tryRows,
              List.nil_append, List.length_cons]
          · omega
          · rw [hL2]
            have : (samplesOf (saveLoop ok clock r d (attempt + 1) f).1).length
                = ((samplesOf (saveLoop ok clock r d (attempt + 1) f).1).length
                  - 1) + 1 := by omega
            rw [Nat.add_sub_cancel]
            conv_rhs => rw [this]
            rw [List.replicate_succ]
          · intro i hi
            cases i with
            | zero => rwa [Nat.add_zero]
            | succ j =>
                have : attempt + (j + 1) = attempt + 1 + j := by omega
                rw [this]
                exact hL3 j (by omega)
          · rw [hL4]
            constructor
            · rintro ⟨hf1, hall⟩
              refine ⟨by omega, ?_⟩
              intro i hi
              cases i with
              | zero => rwa [Nat.add_zero]
              | succ j =>
                  have : attempt + (j + 1) = attempt + 1 + j := by omega
                  rw [this]
                  exact hall j (by omega)
            · rintro ⟨-, hall⟩
              refine ⟨by omega, ?_⟩
              intro i hi
              have : attempt + 1 + i = attempt + (i + 1) := by omega
              rw [this]
              exact hall (i + 1) (by omega)
          · intro _
            omega

/-! ## Claim theorems -/

/-- C5: in state `AwaitingRepeatDecision` the answer is lower-cased and
compared with the affirmative token; an affirmative answer moves to
`AwaitingProjectName` without persisting, any other answer ends the
conversation and triggers exactly one `save_to_sheet` call, and the repeat
decision is never re-prompted (the next state is never `ANOTHER_PROJECT`).
The comparison is case-insensitive: the upper- and mixed-case variants of the
token are affirmative. -/
theorem c5_repeat_decision (sinkOk : Bool) (t : String) (r : UserRecord) :
    (step sinkOk ⟨some .ANOTHER_PROJECT, some r⟩ (.text t)).bot.conv
        = (if isYes t then some .PROJECT_NAME else none)
      ∧ (step sinkOk ⟨some .ANOTHER_PROJECT, some r⟩ (.text t)).persists
        = (if isYes t then [] else [r])
      ∧ (step sinkOk ⟨some .ANOTHER_PROJECT, some r⟩ (.text t)).bot.conv
        ≠ some .ANOTHER_PROJECT
      ∧ isYes "YES" = true ∧ isYes "Yes" = true ∧ isYes "nope" = false := by
  refine ⟨?_, ?_, ?_, by decide, by decide, by decide⟩ <;>
    · simp only [step, handleText, Option.getD]
      cases h : isYes t <;> simp [h]

/-- C6 counterexample: a `/start` trigger received mid-conversation (here in
`AwaitingContact`, with `name` already collected) does not discard the
partial record and does not restart from `AwaitingName`: the
`ConversationHandler` is built without `allow_reentry`, so its entry points
are not consulted while a conversation is active and the update is dropped,
leaving state and record unchanged. -/
theorem c6_start_midconversation_counterexample :
    (run true initBot [.start, .text "Ada", .start]).bot
        = ⟨some .CONTACT, some ⟨some "Ada", none, none, []⟩⟩
      ∧ (run true initBot [.start, .text "Ada", .start]).bot
        ≠ ⟨some .NAME, some emptyRecord⟩ := by decide

/-- C6 (amended): a start trigger received while a conversation is active in
any of the seven collection states is ignored — no state change, no record
reset, no reply — because the conversation handler's entry points are only
consulted when no conversation is active; a start trigger received with no
active conversation creates a fresh record with an empty project list and
moves to `AwaitingName`. -/
theorem c6_start_dispatch (sinkOk : Bool) (st : ConvState) (r : UserRecord) :
    step sinkOk ⟨some st, some r⟩ .start = ⟨⟨some st, some r⟩, [], []⟩
      ∧ step sinkOk initBot .start
        = ⟨⟨some .NAME, some emptyRecord⟩, [], [.askName]⟩ :=
  ⟨rfl, rfl⟩

/-- C7: on a non-affirmative repeat answer the conversation completes:
`save_to_sheet` is invoked once with the accumulated record, and whatever the
outcome (success or exhausted retries), the user's `user_data` entry is
removed, the conversation ends, and the user is sent the confirmation
message on success or the failure message on failure. -/
theorem c7_completion_discards (sinkOk : Bool) (t : String) (r : UserRecord)
    (h : isYes t = false) :
    step sinkOk ⟨some .ANOTHER_PROJECT, some r⟩ (.text t)
      = ⟨⟨none, none⟩, [r],
          [if sinkOk then .savedOk else .saveFailed]⟩ := by
  simp [step, handleText, h]

/-- C7 witness: the failure outcome at a concrete record and answer. -/
theorem c7_completion_discards_witness :
    step false ⟨some .ANOTHER_PROJECT, some adaTwo⟩ (.text "no")
      = ⟨⟨none, none⟩, [adaTwo], [.saveFailed]⟩ :=
  c7_completion_discards false "no" adaTwo (by decide)

/-- C8: a cancel trigger in any of the seven conversation states discards the
user's transient record, acknowledges the cancellation, and returns the
engine to the pre-start condition `initBot`; a subsequent start trigger then
begins a fresh record (empty projects, no retained fields) in
`AwaitingName`. -/
theorem c8_cancel_resets (sinkOk : Bool) (st : ConvState) (r : UserRecord) :
    step sinkOk ⟨some st, some r⟩ .cancel = ⟨initBot, [], [.canceled]⟩
      ∧ run sinkOk ⟨some st, some r⟩ [.cancel, .start]
        = ⟨⟨some .NAME, some emptyRecord⟩, [], [.canceled, .askName]⟩ :=
  ⟨rfl, rfl⟩

/-- C4 counterexample: after the four answers up to the first project name,
the conversation sits in `AwaitingProjectLink` while `projects` already
contains the entry under construction with only its name set (`link` and
`doc` absent) — the record does not hold it outside `projects` until it is
fully populated. -/
theorem c4_incomplete_entry_counterexample :
    (run true initBot [.start, .text "Ada", .text "ada@x.com",
        .text "Builder", .text "Proj1"]).bot.conv = some .PROJECT_LINK
      ∧ ((run true initBot [.start, .text "Ada", .text "ada@x.com",
          .text "Builder", .text "Proj1"]).bot.record.getD
            emptyRecord).projects = [⟨"Proj1", none, none⟩]
      ∧ populated ⟨"Proj1", none, none⟩ = false := by decide

/-- C1: a conversation that starts, answers the six prompts, and answers the
repeat decision non-affirmatively calls `save_to_sheet` exactly once, with a
record holding exactly one project entry made of the three supplied project
answers; persisting that record against a backend where every append
succeeds appends exactly one row
`[timestamp, name, contact, introduction, project name, project link,
project doc]`. -/
theorem c1_single_project_flow (a1 a2 a3 a4 a5 a6 a7 : String)
    (clock : Nat → String) (h : isYes a7 = false) :
    (run true initBot [.start, .text a1, .text a2, .text a3, .text a4,
        .text a5, .text a6, .text a7]).persists
        = [⟨some a1, some a2, some a3, [⟨a4, some a5, some a6⟩]⟩]
      ∧ appendsOf (save_to_sheet (fun _ _ => true) clock MAX_RETRIES
          RETRY_DELAY ⟨some a1, some a2, some a3, [⟨a4, some a5, some a6⟩]⟩).1
        = [[clock 0, a1, a2, a3, a4, a5, a6]] := by
  constructor
  · simp [run, step, handleText, updateLast, emptyRecord, initBot, h]
  · simp [save_to_sheet, MAX_RETRIES, RETRY_DELAY, saveLoop, tryRows,
      projRow, appendsOf]

/-- C1 witness: the concrete spec scenario
`["Ada", "ada@x.com", "Builder", "Proj1", "http://a", "docA", "no"]` produces
one `save_to_sheet` call and the single appended row
`["<ts>", "Ada", "ada@x.com", "Builder", "Proj1", "http://a", "docA"]`. -/
theorem c1_single_project_flow_witness :
    (run true initBot [.start, .text "Ada", .text "ada@x.com",
        .text "Builder", .text "Proj1", .text "http://a", .text "docA",
        .text "no"]).persists
        = [⟨some "Ada", some "ada@x.com", some "Builder",
            [⟨"Proj1", some "http://a", some "docA"⟩]⟩]
      ∧ appendsOf (save_to_sheet (fun _ _ => true) (fun _ => "<ts>")
          MAX_RETRIES RETRY_DELAY
          ⟨some "Ada", some "ada@x.com", some "Builder",
            [⟨"Proj1", some "http://a", some "docA"⟩]⟩).1
        = [["<ts>", "Ada", "ada@x.com", "Builder", "Proj1", "http://a",
            "docA"]] :=
  c1_single_project_flow "Ada" "ada@x.com" "Builder" "Proj1" "http://a"
    "docA" "no" (fun _ => "<ts>") (by decide)

/-- Inbound updates for a sequence of project passes: each pass supplies the
project name, link and doc, then answers the repeat decision — `yes` while
more projects follow, `no` after the last one. -/
def projectMsgs : List (String × String × String) → List Msg
  | [] => []
  | (n, l, d) :: ps =>
      .text n :: .text l :: .text d ::
        .text (if ps.isEmpty then "no" else "yes") :: projectMsgs ps

/-- The completed project entry a pass of the sub-sequence produces. -/
def mkProject : String × String × String → Project
  | (n, l, d) => ⟨n, some l, some d⟩

theorem run_projectMsgs (sinkOk : Bool) (r : UserRecord)
    (ps : List (String × String × String)) (hps : ps ≠ []) :
    (run sinkOk ⟨some .PROJECT_NAME, some r⟩ (projectMsgs ps)).bot = initBot
      ∧ (run sinkOk ⟨some .PROJECT_NAME, some r⟩ (projectMsgs ps)).persists
        = [⟨r.name, r.contact, r.introduction,
            r.projects ++ ps.map mkProject⟩] := by
  induction ps generalizing r with
  | nil => exact absurd rfl hps
  | cons p ps ih =>
      obtain ⟨n, l, d⟩ := p
      cases ps with
      | nil =>
          constructor <;>
            simp [projectMsgs, run, step, handleText, updateLast_concat,
              isYes_no, initBot, mkProject]
      | cons q qs =>
          have hne : q :: qs ≠ [] := by simp
          have hsplit : projectMsgs ((n, l, d) :: q :: qs)
              = [.text n, .text l, .text d, .text "yes"]
                ++ projectMsgs (q :: qs) := by
            simp [projectMsgs]
          have hpre : run sinkOk ⟨some .PROJECT_NAME, some r⟩
              [.text n, .text l, .text d, .text "yes"]
              = ⟨⟨some .PROJECT_NAME,
                  some ⟨r.name, r.contact, r.introduction,
                    r.projects ++ [⟨n, some l, some d⟩]⟩⟩, [],
                  [.askProjectLink, .askProjectDoc, .askAnotherProject,
                    .askNextProjectName]⟩ := by
            simp [run, step, handleText, updateLast_concat, isYes_yes]
          rw [hsplit, run_append, hpre]
          obtain ⟨ih1, ih2⟩ := ih ⟨r.name, r.contact, r.introduction,
            r.projects ++ [⟨n, some l, some d⟩]⟩ hne
          constructor
          · simpa using ih1
          · simp only [ih2]
            simp [mkProject, List.append_assoc]

/-- C2: a conversation that completes the project sub-sequence once, answers
the repeat decision affirmatively `N` times (each time completing another
project pass), and then answers negatively, calls `save_to_sheet` exactly
once with a record containing exactly `N + 1` project entries, in the order
they were entered. -/
theorem c2_repeated_projects (N : Nat) (hN : 1 ≤ N) (a1 a2 a3 : String)
    (ps : List (String × String × String)) (hlen : ps.length = N + 1)
    (sinkOk : Bool) :
    (run sinkOk initBot ([.start, .text a1, .text a2, .text a3]
        ++ projectMsgs ps)).persists
        = [⟨some a1, some a2, some a3, ps.map mkProject⟩]
      ∧ (ps.map mkProject).length = N + 1 := by
  have hps : ps ≠ [] := by
    intro h
    rw [h] at hlen
    exact absurd hlen.symm (Nat.succ_ne_zero N)
  have hpre : run sinkOk initBot [.start, .text a1, .text a2, .text a3]
      = ⟨⟨some .PROJECT_NAME, some ⟨some a1, some a2, some a3, []⟩⟩, [],
          [.askName, .askContact, .askIntroduction, .askProjectName]⟩ := by
    simp [run, step, handleText, initBot, emptyRecord]
  obtain ⟨h1, h2⟩ := run_projectMsgs sinkOk ⟨some a1, some a2, some a3, []⟩
    ps hps
  rw [run_append, hpre]
  constructor
  · simp [h2]
  · simp [hlen]

/-- C2 witness: `N = 1` — one affirmative repeat answer, then a negative one;
the persisted record holds the two project entries in entry order. -/
theorem c2_repeated_projects_witness :
    (run true initBot ([.start, .text "Ada", .text "ada@x.com",
        .text "Builder"] ++ projectMsgs [("Proj1", "http://a", "docA"),
          ("Proj2", "http://b", "docB")])).persists
        = [⟨some "Ada", some "ada@x.com", some "Builder",
            [⟨"Proj1", some "http://a", some "docA"⟩,
              ⟨"Proj2", some "http://b", some "docB"⟩]⟩]
      ∧ ([("Proj1", "http://a", "docA"),
          ("Proj2", "http://b", "docB")].map mkProject).length = 1 + 1 :=
  c2_repeated_projects 1 (by decide) "Ada" "ada@x.com" "Builder"
    [("Proj1", "http://a", "docA"), ("Proj2", "http://b", "docB")]
    (by decide) true

/-- C3: for every record and every backend behavior, `save_to_sheet` makes at
most `MAX_RETRIES` attempts (one timestamp sample per attempt), sleeps
exactly `RETRY_DELAY` between consecutive attempts (one sleep fewer than
attempts), every attempt before the last one failed (success stops the
loop), and the call raises to its caller exactly when all `MAX_RETRIES`
permitted attempts failed. -/
theorem c3_retry_policy (ok : Nat → Nat → Bool) (clock : Nat → String)
    (r : UserRecord) (m d : Nat) (hm : 1 ≤ m) :
    (samplesOf (save_to_sheet ok clock m d r).1).length ≤ m
      ∧ sleepsOf (save_to_sheet ok clock m d r).1
        = List.replicate
            ((samplesOf (save_to_sheet ok clock m d r).1).length - 1) d
      ∧ (∀ i, i + 1 < (samplesOf (save_to_sheet ok clock m d r).1).length →
          attemptFails ok clock r i = true)
      ∧ ((save_to_sheet ok clock m d r).2 = false
          ↔ ∀ i < m, attemptFails ok clock r i = true) := by
  unfold save_to_sheet
  obtain ⟨h1, h2, h3, h4, h5⟩ := saveLoop_spec ok clock r d m 0
  refine ⟨h1, h2, ?_, ?_⟩
  · intro i hi
    have hfi := h3 i hi
    rwa [Nat.zero_add] at hfi
  · rw [h4]
    constructor
    · rintro ⟨-, hall⟩ i hi
      have hfi := hall i hi
      rwa [Nat.zero_add] at hfi
    · intro hall
      refine ⟨hm, fun i hi => ?_⟩
      rw [Nat.zero_add]
      exact hall i hi

/-- C3 witness: an always-failing backend at the default configuration — the
loop samples at most `MAX_RETRIES` timestamps, its sleeps all last
`RETRY_DELAY`, and the exhausted call raises to its caller. -/
theorem c3_retry_policy_witness :
    (samplesOf (save_to_sheet (fun _ _ => false) (fun _ => "ts") MAX_RETRIES
        RETRY_DELAY adaTwo).1).length ≤ MAX_RETRIES
      ∧ sleepsOf (save_to_sheet (fun _ _ => false) (fun _ => "ts")
          MAX_RETRIES RETRY_DELAY adaTwo).1
        = List.replicate ((samplesOf (save_to_sheet (fun _ _ => false)
            (fun _ => "ts") MAX_RETRIES RETRY_DELAY adaTwo).1).length - 1)
            RETRY_DELAY
      ∧ (save_to_sheet (fun _ _ => false) (fun _ => "ts") MAX_RETRIES
          RETRY_DELAY adaTwo).2 = false :=
  ⟨(c3_retry_policy (fun _ _ => false) (fun _ => "ts") adaTwo MAX_RETRIES
      RETRY_DELAY (by decide)).1,
   (c3_retry_policy (fun _ _ => false) (fun _ => "ts") adaTwo MAX_RETRIES
      RETRY_DELAY (by decide)).2.1,
   (c3_retry_policy (fun _ _ => false) (fun _ => "ts") adaTwo MAX_RETRIES
      RETRY_DELAY (by decide)).2.2.2.mpr (by decide)⟩

/-- C9 counterexample: the timestamp is re-sampled on every retry attempt,
not once per `save_to_sheet` call — `datetime.now()` sits inside the retry
loop.  With a backend that appends the first row of attempt 0 and then
raises, and succeeds on attempt 1, two timestamps are sampled in one call and
the appended rows do not all carry the identical timestamp value. -/
theorem c9_timestamp_counterexample :
    samplesOf (save_to_sheet failSecondRowOnce twoTickClock MAX_RETRIES
        RETRY_DELAY adaTwo).1 = ["t0", "t1"]
      ∧ (appendsOf (save_to_sheet failSecondRowOnce twoTickClock MAX_RETRIES
          RETRY_DELAY adaTwo).1).map List.head?
        = [some "t0", some "t1", some "t1"]
      ∧ (save_to_sheet failSecondRowOnce twoTickClock MAX_RETRIES
          RETRY_DELAY adaTwo).2 = true := by decide

/-- C9 (amended): the timestamp is captured once per retry attempt, at
attempt start, so all rows appended within one attempt carry the identical
timestamp; in particular whenever the first attempt succeeds — the no-retry
case — the call samples exactly one timestamp, succeeds, appends one row per
project in order, and every appended row starts with that timestamp. -/
theorem c9_timestamp_per_attempt (ok : Nat → Nat → Bool)
    (clock : Nat → String) (m d : Nat) (r : UserRecord) (hm : 1 ≤ m)
    (h : attemptFails ok clock r 0 = false) :
    (save_to_sheet ok clock m d r).2 = true
      ∧ samplesOf (save_to_sheet ok clock m d r).1 = [clock 0]
      ∧ appendsOf (save_to_sheet ok clock m d r).1
        = r.projects.filterMap (projRow (clock 0) r)
      ∧ ∀ row ∈ appendsOf (save_to_sheet ok clock m d r).1,
          row.head? = some (clock 0) := by
  obtain ⟨m', rfl⟩ : ∃ m', m = m' + 1 := ⟨m - 1, by omega⟩
  have hsucc : (tryRows (ok 0) (clock 0) r 0 r.projects).2 = true := by
    unfold attemptFails at h
    simpa using h
  unfold save_to_sheet
  rw [saveLoop, if_pos hsucc]
  refine ⟨rfl, ?_, ?_, ?_⟩
  · simp [samplesOf, samplesOf_tryRows]
  · simp only [appendsOf]
    exact tryRows_success_appends (ok 0) (clock 0) r 0 r.projects hsucc
  · intro row hrow
    simp only [appendsOf] at hrow
    rw [tryRows_success_appends (ok 0) (clock 0) r 0 r.projects hsucc]
      at hrow
    obtain ⟨p, _, hpr⟩ := List.mem_filterMap.mp hrow
    exact projRow_head (clock 0) r p row hpr

/-- C9 witness: the two-project record persisted against an all-success
backend — one sampled timestamp, two appended rows sharing the timestamp,
name, contact and introduction, differing only in the three project
columns. -/
theorem c9_timestamp_per_attempt_witness :
    (save_to_sheet (fun _ _ => true) (fun _ => "ts") MAX_RETRIES RETRY_DELAY
        adaTwo).2 = true
      ∧ samplesOf (save_to_sheet (fun _ _ => true) (fun _ => "ts")
          MAX_RETRIES RETRY_DELAY adaTwo).1 = ["ts"]
      ∧ appendsOf (save_to_sheet (fun _ _ => true) (fun _ => "ts")
          MAX_RETRIES RETRY_DELAY adaTwo).1
        = [["ts", "Ada", "ada@x.com", "Builder", "Proj1", "http://a",
            "docA"],
           ["ts", "Ada", "ada@x.com", "Builder", "Proj2", "http://b",
            "docB"]] :=
  ⟨(c9_timestamp_per_attempt (fun _ _ => true) (fun _ => "ts") MAX_RETRIES
      RETRY_DELAY adaTwo (by decide) (by decide)).1,
   (c9_timestamp_per_attempt (fun _ _ => true) (fun _ => "ts") MAX_RETRIES
      RETRY_DELAY adaTwo (by decide) (by decide)).2.1,
   (c9_timestamp_per_attempt (fun _ _ => true) (fun _ => "ts") MAX_RETRIES
      RETRY_DELAY adaTwo (by decide) (by decide)).2.2.1⟩

/-- C10: retries are not idempotent at the row level — with the two-project
record, a backend that appends the first row of attempt 0 and then raises,
and a retry that succeeds, the first project's row is appended twice (the
retry restarts from row 1), so the backend ends up with duplicate rows even
though the call reports success. -/
theorem c10_nonidempotent_retry_duplicates :
    appendsOf (save_to_sheet failSecondRowOnce (fun _ => "ts") MAX_RETRIES
        RETRY_DELAY adaTwo).1
      = [["ts", "Ada", "ada@x.com", "Builder", "Proj1", "http://a", "docA"],
         ["ts", "Ada", "ada@x.com", "Builder", "Proj1", "http://a", "docA"],
         ["ts", "Ada", "ada@x.com", "Builder", "Proj2", "http://b", "docB"]]
      ∧ (save_to_sheet failSecondRowOnce (fun _ => "ts") MAX_RETRIES
          RETRY_DELAY adaTwo).2 = true
      ∧ ¬ (appendsOf (save_to_sheet failSecondRowOnce (fun _ => "ts")
          MAX_RETRIES RETRY_DELAY adaTwo).1).Nodup := by decide

/-- The population invariant the record actually maintains: whenever a
conversation is active there is a stored record; in `PROJECT_LINK` and
`PROJECT_DOC` the entry under construction is the last element of `projects`
with exactly the not-yet-collected fields absent, every earlier entry being
fully populated; in every other state all entries are fully populated.  With
no active conversation there is no stored record. -/
def projInv (b : BotState) : Prop :=
  match b.conv, b.record with
  | none, r => r = none
  | some st, some r =>
      match st with
      | .PROJECT_LINK =>
          ∃ ps q, r.projects = ps ++ [q] ∧ (∀ p ∈ ps, populated p = true)
            ∧ q.link = none ∧ q.doc = none
      | .PROJECT_DOC =>
          ∃ ps q, r.projects = ps ++ [q] ∧ (∀ p ∈ ps, populated p = true)
            ∧ q.link.isSome = true ∧ q.doc = none
      | _ => ∀ p ∈ r.projects, populated p = true
  | some _, none => False

theorem projInv_step (sinkOk : Bool) (b : BotState) (m : Msg)
    (hb : projInv b) : projInv (step sinkOk b m).bot := by
  obtain ⟨conv, record⟩ := b
  cases m with
  | start =>
      cases conv with
      | none => simp [step, projInv, emptyRecord]
      | some st => exact hb
  | cancel =>
      cases conv with
      | none => exact hb
      | some st => simp [step, projInv]
  | text t =>
      cases conv with
      | none => exact hb
      | some st =>
          cases record with
          | none => cases st <;> exact hb.elim
          | some r =>
              cases st with
              | NAME =>
                  simp only [step, Option.getD_some, handleText, projInv]
                    at hb ⊢
                  exact hb
              | CONTACT =>
                  simp only [step, Option.getD_some, handleText, projInv]
                    at hb ⊢
                  exact hb
              | INTRODUCTION =>
                  simp only [step, Option.getD_some, handleText, projInv]
                    at hb ⊢
                  exact hb
              | PROJECT_NAME =>
                  simp only [step, Option.getD_some, handleText, projInv]
                    at hb ⊢
                  exact ⟨r.projects, ⟨t, none, none⟩, rfl, hb, rfl, rfl⟩
              | PROJECT_LINK =>
                  simp only [step, Option.getD_some, handleText, projInv]
                    at hb ⊢
                  obtain ⟨ps, q, heq, hall, hql, hqd⟩ := hb
                  refine ⟨ps, { q with link := some t }, ?_, hall, ?_, ?_⟩
                  · rw [heq, updateLast_concat]
                  · simp
                  · simpa using hqd
              | PROJECT_DOC =>
                  simp only [step, Option.getD_some, handleText, projInv]
                    at hb ⊢
                  obtain ⟨ps, q, heq, hall, hql, hqd⟩ := hb
                  rw [heq, updateLast_concat]
                  intro p hp
                  rcases List.mem_append.mp hp with hp | hp
                  · exact hall p hp
                  · obtain rfl := List.mem_singleton.mp hp
                    simp [populated, hql]
              | ANOTHER_PROJECT =>
                  cases hy : isYes t with
                  | true =>
                      simp only [step, Option.getD_some, handleText, hy,
                        if_true, projInv] at hb ⊢
                      exact hb
                  | false =>
                      simp only [step, Option.getD_some, handleText, hy,
                        Bool.false_eq_true, if_false, projInv] at hb ⊢

theorem projInv_run (sinkOk : Bool) (msgs : List Msg) (b : BotState)
    (hb : projInv b) : projInv (run sinkOk b msgs).bot := by
  induction msgs generalizing b with
  | nil => exact hb
  | cons m ms ih => exact ih _ (projInv_step sinkOk b m hb)

/-- C4 (amended): the entry under construction is not held outside
`projects` — `get_project_name` appends it to `projects` at once with only
its name, and the link and doc are filled into that last element in place —
but by the time the conversation reaches `AwaitingRepeatDecision`
(`ANOTHER_PROJECT`), every entry of `projects` is fully populated (name,
link, and doc all present), in every reachable conversation. -/
theorem c4_populated_at_repeat_decision (sinkOk : Bool) (msgs : List Msg)
    (h : (run sinkOk initBot msgs).bot.conv = some .ANOTHER_PROJECT) :
    ∀ p ∈ ((run sinkOk initBot msgs).bot.record.getD emptyRecord).projects,
      populated p = true := by
  have hinv := projInv_run sinkOk msgs initBot rfl
  revert hinv h
  generalize (run sinkOk initBot msgs).bot = B
  obtain ⟨conv, rec⟩ := B
  intro h hinv
  replace h : conv = some ConvState.ANOTHER_PROJECT := h
  subst h
  cases rec with
  | none => exact hinv.elim
  | some r =>
      simp only [projInv] at hinv
      simpa using hinv

/-- C4 (amended) witness: the one-project scenario, stopped at the repeat
prompt — the single entry in `projects` (the completed first project) is
fully populated. -/
theorem c4_populated_at_repeat_decision_witness :
    populated ⟨"Proj1", some "http://a", some "docA"⟩ = true :=
  c4_populated_at_repeat_decision true adaMsgs (by decide)
    ⟨"Proj1", some "http://a", some "docA"⟩ (by decide)

end PortfolioBot
